import Mathlib

/-!
Shallow embedding of the Canary relay bot (src/Canary-Code.py).

The Python module keeps three module-level dictionaries:

* `group_mappings : group_id -> guild_id -> channel object` (a value can be
  `None` after a load whose channel id did not resolve, line 35);
* `relay_enabled : group_id -> guild_id -> bool`;
* `server_groups : guild_id -> group_id`.

Python dictionaries preserve insertion order, so they are embedded as
association lists; dictionary assignment updates in place when the key is
present and appends otherwise.  The Discord client facilities the bot calls
(guild names, member lookup, channel resolution, the identity of the bot
user) are abstracted as an environment of lookup functions.  Fallible paths
are embedded with `Option`: `none` marks a raised exception (`KeyError` when
`relay_enabled` lacks a group that `group_mappings` has, `AttributeError`
when a `None` channel object is dereferenced).  Python truthiness of the
group id string (`if group_id:`) is embedded as an explicit test against the
empty string.
-/

abbrev GroupId := String
abbrev GuildId := Nat
abbrev UserId := Nat
abbrev ChannelId := Nat

/-- A Discord text channel object, as far as the bot uses it: `channel.id`
and `channel.guild` (of the guild object only the id is ever needed by the
embedding; the guild name is looked up through the environment). -/
structure Channel where
  id : ChannelId
  guildId : GuildId
deriving DecidableEq

/-- The external Discord client, abstracted: `guildName` is `guild.name`,
`member g u` is `guild(g).get_member(u)` reduced to the display name of the
member when present, `getChannel` is `bot.get_channel`, and `botUser` is the
id of `bot.user`. -/
structure Env where
  guildName : GuildId → String
  member : GuildId → UserId → Option String
  getChannel : ChannelId → Option Channel
  botUser : UserId

/-- An inbound Discord message, as far as `on_message` reads it:
`message.author`, `message.author.display_name`, `message.guild.id`,
`message.channel.id`, `message.content` and `message.mentions` (of each
mentioned user object only the id is used). -/
structure Message where
  authorId : UserId
  authorDisplayName : String
  guildId : GuildId
  channelId : ChannelId
  content : String
  mentions : List UserId

/-- The three module-level dictionaries of the bot (lines 24-26). -/
structure BotState where
  group_mappings : List (GroupId × List (GuildId × Option Channel))
  relay_enabled : List (GroupId × List (GuildId × Bool))
  server_groups : List (GuildId × GroupId)
deriving DecidableEq

/-- Python dictionary lookup `d.get(k)` / `k in d`, on an insertion-ordered
association list. -/
def dictGet [DecidableEq α] (l : List (α × β)) (k : α) : Option β :=
  match l with
  | [] => none
  | p :: rest => if p.1 = k then some p.2 else dictGet rest k

/-- Python dictionary assignment `d[k] = v`: replaces the value in place when
the key is present (keeping its position in insertion order), appends a new
entry otherwise. -/
def dictSet [DecidableEq α] (l : List (α × β)) (k : α) (v : β) : List (α × β) :=
  match l with
  | [] => [(k, v)]
  | p :: rest => if p.1 = k then (k, v) :: rest else p :: dictSet rest k v

/-- Sequential left-to-right effectful map, `none` marking the exception that
aborts a Python comprehension or serialisation as soon as one element
fails. -/
def omapM (f : α → Option β) : List α → Option (List β)
  | [] => some []
  | a :: l =>
    match f a with
    | none => none
    | some b =>
      match omapM f l with
      | none => none
      | some bs => some (b :: bs)

/-- Boolean test that `p` is a prefix of `s` (character-exact). -/
def lpre : List Char → List Char → Bool
  | [], _ => true
  | _ :: _, [] => false
  | a :: p, b :: s => if a = b then lpre p s else false

/-- Fuel-driven core of Python `str.replace`: scan left to right; at each
position where the (nonempty) pattern is a prefix, emit the replacement and
continue after the matched pattern; otherwise emit the character and advance
by one.  The fuel only needs to dominate the length of the scanned string.
The call sites of the bot always pass a nonempty pattern (a mention token),
so the empty-pattern branch is never exercised. -/
def replaceFuel : Nat → List Char → List Char → List Char → List Char
  | 0, s, _, _ => s
  | _ + 1, [], _, _ => []
  | f + 1, c :: s, pat, rep =>
    if lpre pat (c :: s) && !pat.isEmpty then
      rep ++ replaceFuel f (List.drop pat.length (c :: s)) pat rep
    else
      c :: replaceFuel f s pat rep

/-- Python `s.replace(pat, rep)` on character lists (all occurrences,
left to right, non-overlapping, single pass). -/
def pyReplace (s pat rep : List Char) : List Char :=
  replaceFuel s.length s pat rep

/-- The mention token `f"<@{user.id}>"` of line 174, as a character list,
with the user id rendered in decimal. -/
def tokL (u : UserId) : List Char :=
  '<' :: '@' :: (Nat.toDigits 10 u ++ ['>'])

/-- The mention token as a string. -/
def mentionToken (u : UserId) : String := String.mk (tokL u)

/-- Character-list core of `format_mentions` (lines 166-177): fold over the
mentioned users in order; for a user the destination audience resolves,
replace every occurrence of that user token by `"@" + display_name`;
otherwise leave the text as it is. -/
def format_mentionsL (content : List Char) (mentions : List UserId)
    (resolve : UserId → Option (List Char)) : List Char :=
  match mentions with
  | [] => content
  | u :: ms =>
    match resolve u with
    | some nm => format_mentionsL (pyReplace content (tokL u) ('@' :: nm)) ms resolve
    | none => format_mentionsL content ms resolve

/-- The nested `format_mentions` helper of `on_message` (lines 166-177),
with the destination audience abstracted as a resolver from user id to
optional display name. -/
def format_mentions (content : String) (mentions : List UserId)
    (resolve : UserId → Option String) : String :=
  String.mk (format_mentionsL content.data mentions (fun u => (resolve u).map String.data))

/-- The outbound text of line 183:
`f"[{message.guild.name}] {message.author.display_name}: {format_mentions(message.content, target_channel.guild)}"`. -/
def relayText (env : Env) (msg : Message) (target : Channel) : String :=
  "[" ++ env.guildName msg.guildId ++ "] " ++ msg.authorDisplayName ++ ": " ++
    format_mentions msg.content msg.mentions (env.member target.guildId)

/-- The relay block of `on_message` (lines 160-188).  It performs no
assignment to the module dictionaries, so the state is returned unchanged;
the second component is the list of `(target_channel, content)` pairs handed
to `relay_message` tasks, or `none` when the block raises (`KeyError` on a
`relay_enabled` group missing while `group_mappings` has it, or
`AttributeError` on a `None` channel object). -/
def handle (st : BotState) (env : Env) (msg : Message) :
    BotState × Option (List (Channel × String)) :=
  match dictGet st.server_groups msg.guildId with
  | none => (st, some [])
  | some g =>
    if g = "" then (st, some [])
    else
      match dictGet st.group_mappings g with
      | none => (st, some [])
      | some gm =>
        match dictGet gm msg.guildId with
        | none => (st, some [])
        | some originChannel =>
          match dictGet st.relay_enabled g with
          | none => (st, none)
          | some re =>
            if (dictGet re msg.guildId).getD false then
              match originChannel with
              | none => (st, none)
              | some och =>
                if msg.channelId = och.id then
                  (st, omapM (fun b =>
                      match b.2 with
                      | none => none
                      | some ch => some (ch, relayText env msg ch))
                    (gm.filter (fun b =>
                      !(decide (b.1 = msg.guildId)) && (dictGet re b.1).getD false)))
                else (st, some [])
            else (st, some [])

/-- The `on_message` event handler (lines 153-188): messages authored by the
bot itself are dropped before anything else runs (lines 155-156); otherwise
commands are dispatched to the external framework (line 158, the boolean
component records that this call happened) and the relay block runs. -/
def on_message (st : BotState) (env : Env) (msg : Message) :
    BotState × Bool × Option (List (Channel × String)) :=
  if msg.authorId = env.botUser then (st, false, some [])
  else
    let r := handle st env msg
    (r.1, true, r.2)

/-- Outcome of the one network send a dispatch task performs. -/
inductive SendOutcome
  | ok
  | httpError
deriving DecidableEq

/-- Observable trace of one `relay_message` task (lines 145-151):
how many times `target_channel.send` was entered, whether it succeeded,
which `asyncio.sleep` pauses ran, whether `logging.error` ran, and whether
the coroutine re-raised. -/
structure TaskResult where
  sendAttempts : Nat
  sent : Bool
  sleptSeconds : List Nat
  loggedError : Bool
  raised : Bool
deriving DecidableEq

/-- The `relay_message` helper (lines 145-151).  On success the task sleeps
one second after the send; a `discord.HTTPException` raised by the send
transfers control to the `except` handler, which logs and returns, so the
sleep is skipped and nothing propagates.  The send is entered exactly once
either way (no retry). -/
def relay_message (target : Channel) (outcome : SendOutcome) : TaskResult :=
  match outcome with
  | SendOutcome.ok =>
    { sendAttempts := 1, sent := true, sleptSeconds := [1],
      loggedError := false, raised := false }
  | SendOutcome.httpError =>
    { sendAttempts := 1, sent := false, sleptSeconds := [],
      loggedError := true, raised := false }

/-- The fan-out of line 180-188: one independent `relay_message` task per
computed send, each seeing only the outcome of its own target.  This is the
`asyncio.gather(*relay_tasks)` shape: the tasks share no state and none is
cancelled because of another. -/
def dispatchAll (sends : List (Channel × String)) (outcome : Channel → SendOutcome) :
    List (Channel × String × TaskResult) :=
  sends.map (fun p => (p.1, p.2, relay_message p.1 (outcome p.1)))

/-- Whether `asyncio.gather` re-raises: it does exactly when some task
raised. -/
def gatherRaised (results : List (Channel × String × TaskResult)) : Bool :=
  results.any (fun p => p.2.2.raised)

/-- Replies sent back to the invoking user by the command handlers
(the constructors stand for the literal f-strings of the source). -/
inductive Reply
  | enabledMsg (g : GroupId)
  | disabledMsg (g : GroupId)
  | notSetUpGuidance
deriving DecidableEq

/-- Result of a command handler: the state after the handler, the reply text
sent to the invoker, and whether `save_settings` was triggered. -/
structure CmdResult where
  state : BotState
  reply : Reply
  saved : Bool
deriving DecidableEq

/-- The `/enable` handler (lines 88-98).  The guard is
`group_id and group_id in relay_enabled and ctx.guild.id in relay_enabled[group_id]`;
when it holds the flag is set to `True` in place and a save is triggered,
otherwise a guidance reply is sent and nothing changes. -/
def enable_relay (st : BotState) (guild : GuildId) : CmdResult :=
  match dictGet st.server_groups guild with
  | none => ⟨st, Reply.notSetUpGuidance, false⟩
  | some g =>
    if g = "" then ⟨st, Reply.notSetUpGuidance, false⟩
    else
      match dictGet st.relay_enabled g with
      | none => ⟨st, Reply.notSetUpGuidance, false⟩
      | some re =>
        if (dictGet re guild).isSome then
          ⟨{ st with relay_enabled := dictSet st.relay_enabled g (dictSet re guild true) },
            Reply.enabledMsg g, true⟩
        else ⟨st, Reply.notSetUpGuidance, false⟩

/-- The `/disable` handler (lines 100-110), identical to `/enable` except
that it stores `False`. -/
def disable_relay (st : BotState) (guild : GuildId) : CmdResult :=
  match dictGet st.server_groups guild with
  | none => ⟨st, Reply.notSetUpGuidance, false⟩
  | some g =>
    if g = "" then ⟨st, Reply.notSetUpGuidance, false⟩
    else
      match dictGet st.relay_enabled g with
      | none => ⟨st, Reply.notSetUpGuidance, false⟩
      | some re =>
        if (dictGet re guild).isSome then
          ⟨{ st with relay_enabled := dictSet st.relay_enabled g (dictSet re guild false) },
            Reply.disabledMsg g, true⟩
        else ⟨st, Reply.notSetUpGuidance, false⟩

/-- Whether the guard of `/enable` and `/disable` holds: the invoking guild
has a (truthy) group and `relay_enabled` has an entry for that pair. -/
def hasEnabledEntry (st : BotState) (guild : GuildId) : Bool :=
  match dictGet st.server_groups guild with
  | none => false
  | some g =>
    if g = "" then false
    else
      match dictGet st.relay_enabled g with
      | none => false
      | some re => (dictGet re guild).isSome

/-- The enabled flag stored for `(g, guild)`, when both levels exist. -/
def relayFlag (st : BotState) (g : GroupId) (guild : GuildId) : Option Bool :=
  match dictGet st.relay_enabled g with
  | none => none
  | some re => dictGet re guild

/-- The JSON document written by `save_settings` (lines 46-50): guild keys
are written as decimal integers (and re-read with `int(...)`), so they are
modelled as naturals directly. -/
structure PersistedDoc where
  group_mappings : List (GroupId × List (GuildId × ChannelId))
  relay_enabled : List (GroupId × List (GuildId × Bool))
  server_groups : List (GuildId × GroupId)
deriving DecidableEq

/-- The parsed JSON object seen by `load_settings`; a `none` field models the
`KeyError` raised by `data[...]` when that top-level key is missing.  Fields
that are present are assumed well-typed (the representative read failure in
this embedding is a missing key). -/
structure RawDoc where
  group_mappings : Option (List (GroupId × List (GuildId × ChannelId)))
  relay_enabled : Option (List (GroupId × List (GuildId × Bool)))
  server_groups : Option (List (GuildId × GroupId))
deriving DecidableEq

/-- What `load_settings` prints (lines 38-42). -/
inductive LoadLog
  | loaded
  | fileNotFound
  | loadError
deriving DecidableEq

/-- The comprehension of line 35: resolve every stored channel id through
`bot.get_channel`; an unresolved id stores `None`. -/
def parseGM (env : Env) (gm : List (GroupId × List (GuildId × ChannelId))) :
    List (GroupId × List (GuildId × Option Channel)) :=
  gm.map (fun kv => (kv.1, kv.2.map (fun gc => (gc.1, env.getChannel gc.2))))

/-- The `load_settings` function (lines 29-42).  The three global
assignments of lines 35-37 run in order; an exception raised while building
one of them (modelled: the missing top-level key) jumps to the `except`
handler, leaving the assignments already executed in place.  `none` for the
file models `FileNotFoundError`. -/
def load_settings (file : Option RawDoc) (env : Env) (st : BotState) :
    BotState × LoadLog :=
  match file with
  | none => (st, LoadLog.fileNotFound)
  | some data =>
    match data.group_mappings with
    | none => (st, LoadLog.loadError)
    | some gmRaw =>
      let st1 := { st with group_mappings := parseGM env gmRaw }
      match data.relay_enabled with
      | none => (st1, LoadLog.loadError)
      | some reRaw =>
        let st2 := { st1 with relay_enabled := reRaw }
        match data.server_groups with
        | none => (st2, LoadLog.loadError)
        | some sgRaw => ({ st2 with server_groups := sgRaw }, LoadLog.loaded)

/-- The `save_settings` function (lines 44-53): serialise the three
dictionaries; `channel.id` on a `None` channel value raises
(`AttributeError`), modelled as `none`.  Writing the file is external; the
returned document is what `json.dump` receives.  The function reads the
globals and never assigns them. -/
def save_settings (st : BotState) : Option PersistedDoc :=
  match omapM (fun kv =>
      match omapM (fun gc =>
          match gc.2 with
          | none => none
          | some ch => some (gc.1, ch.id)) kv.2 with
      | none => none
      | some inner => some (kv.1, inner)) st.group_mappings with
  | none => none
  | some gms => some ⟨gms, st.relay_enabled, st.server_groups⟩

/-- A fully present raw document, as produced by a successful earlier
`save_settings`. -/
def docToRaw (d : PersistedDoc) : RawDoc :=
  ⟨some d.group_mappings, some d.relay_enabled, some d.server_groups⟩

/-- Specification-side simultaneous mention substitution: scan the body left
to right; at a position where the token of some resolved mentioned user
starts, emit `"@" + display_name` and skip the token; otherwise copy the
character.  Every occurrence of a resolved token is replaced, tokens of
unresolved users and all other text are copied verbatim, and only exact full
tokens match. -/
def substFuel : Nat → List Char → List (UserId × List Char) → List Char
  | 0, s, _ => s
  | _ + 1, [], _ => []
  | f + 1, c :: s, rs =>
    match List.find? (fun p => lpre (tokL p.1) (c :: s)) rs with
    | some q => ('@' :: q.2) ++ substFuel f (List.drop (tokL q.1).length (c :: s)) rs
    | none => c :: substFuel f s rs

/-- Simultaneous substitution of all resolved mention tokens. -/
def simultSubst (s : List Char) (rs : List (UserId × List Char)) : List Char :=
  substFuel s.length s rs

/-- The `(user id, display name)` pairs the destination audience resolves,
in mention order. -/
def resolvedPairs (mentions : List UserId) (resolve : UserId → Option (List Char)) :
    List (UserId × List Char) :=
  mentions.filterMap (fun u => (resolve u).map (fun nm => (u, nm)))

/-- String-level simultaneous mention rewriting, the behaviour the
specification describes for the mention rewriter. -/
def rewriteSimultaneous (content : String) (mentions : List UserId)
    (resolve : UserId → Option String) : String :=
  String.mk (simultSubst content.data
    (resolvedPairs mentions (fun u => (resolve u).map String.data)))

/-- A display name that cannot interfere with mention tokens: it contains
neither `<` nor `>` and is not made of digits alone (hence nonempty). -/
def goodName (nm : List Char) : Bool :=
  decide ( ¬ '<' ∈ nm) && decide ( ¬ '>' ∈ nm) && nm.any (fun c => !c.isDigit)

/-- String form of `goodName`. -/
def goodNameS (nm : String) : Bool := goodName nm.data

theorem dictGet_dictSet_self [DecidableEq α] (l : List (α × β)) (k : α) (v : β) :
    dictGet (dictSet l k v) k = some v := by
  induction l with
  | nil => simp [dictGet, dictSet]
  | cons p rest ih =>
    by_cases h : p.1 = k
    · simp [dictGet, dictSet, h]
    · simp [dictGet, dictSet, h, ih]

theorem dictGet_dictSet_ne [DecidableEq α] (l : List (α × β)) (k k' : α) (v : β)
    (h : k' ≠ k) : dictGet (dictSet l k v) k' = dictGet l k' := by
  have h1 : ¬ k = k' := fun hk => h hk.symm
  induction l with
  | nil => simp [dictGet, dictSet, h1]
  | cons p rest ih =>
    by_cases hp : p.1 = k
    · have h2 : ¬ p.1 = k' := by rw [hp]; exact h1
      simp [dictGet, dictSet, hp, h1, h2]
    · by_cases hq : p.1 = k'
      · simp [dictGet, dictSet, hp, hq, h]
      · simp [dictGet, dictSet, hp, hq, ih]

theorem omapM_map_some (f : α → Option β) (g : α → β) (l : List α)
    (h : ∀ a ∈ l, f a = some (g a)) : omapM f l = some (l.map g) := by
  induction l with
  | nil => rfl
  | cons a rest ih =>
    have ha := h a (by simp)
    have hr := ih (fun a ha => h a (by simp [ha]))
    simp [omapM, ha, hr]

theorem lpre_append_self (p t : List Char) : lpre p (p ++ t) = true := by
  induction p with
  | nil => rfl
  | cons a p ih => simp [lpre, ih]

theorem lpre_iff_append (p s : List Char) :
    lpre p s = true ↔ ∃ t, s = p ++ t := by
  constructor
  · intro h
    induction p generalizing s with
    | nil => exact ⟨s, rfl⟩
    | cons a p ih =>
      cases s with
      | nil => simp [lpre] at h
      | cons b s =>
        by_cases hab : a = b
        · subst hab
          simp [lpre] at h
          obtain ⟨t, ht⟩ := ih s h
          exact ⟨t, by simp [ht]⟩
        · simp [lpre, hab] at h
  · rintro ⟨t, rfl⟩
    exact lpre_append_self p t

theorem lpre_length_le (p s : List Char) (h : lpre p s = true) :
    p.length ≤ s.length := by
  obtain ⟨t, rfl⟩ := (lpre_iff_append p s).mp h
  simp

theorem lpre_cons_of_ne (a b : Char) (p s : List Char) (h : a ≠ b) :
    lpre (a :: p) (b :: s) = false := by
  simp [lpre, h]

theorem lpre_nil_right (a : Char) (p : List Char) : lpre (a :: p) [] = false := rfl

theorem replaceFuel_irrel (f g : Nat) (s pat rep : List Char)
    (hf : s.length ≤ f) (hg : s.length ≤ g) :
    replaceFuel f s pat rep = replaceFuel g s pat rep := by
  induction f generalizing s g with
  | zero =>
    have hs : s = [] := List.eq_nil_of_length_eq_zero (Nat.le_zero.mp hf)
    subst hs
    cases g <;> simp [replaceFuel]
  | succ f ih =>
    cases s with
    | nil => cases g <;> simp [replaceFuel]
    | cons c s =>
      cases g with
      | zero => simp at hg
      | succ g =>
        simp only [List.length_cons] at hf hg
        by_cases hc : (lpre pat (c :: s) && !pat.isEmpty) = true
        · have hpat : pat ≠ [] := by
            intro hp
            subst hp
            simp at hc
          have h1 : 1 ≤ pat.length := by
            cases pat with
            | nil => exact absurd rfl hpat
            | cons a q => simp
          have hlen : (List.drop pat.length (c :: s)).length ≤ f := by
            simp only [List.length_drop, List.length_cons]
            omega
          have hleng : (List.drop pat.length (c :: s)).length ≤ g := by
            simp only [List.length_drop, List.length_cons]
            omega
          simp only [replaceFuel, hc, if_true]
          rw [ih g (List.drop pat.length (c :: s)) hlen hleng]
        · have hc' : (lpre pat (c :: s) && !pat.isEmpty) = false :=
            eq_false_of_ne_true hc
          have hlen : s.length ≤ f := by omega
          have hleng : s.length ≤ g := by omega
          simp only [replaceFuel, hc', Bool.false_eq_true, if_false]
          rw [ih g s hlen hleng]

theorem pyReplace_nil (pat rep : List Char) : pyReplace [] pat rep = [] := rfl

theorem pyReplace_match (s pat rep : List Char) (hpat : pat ≠ [])
    (h : lpre pat s = true) :
    pyReplace s pat rep = rep ++ pyReplace (List.drop pat.length s) pat rep := by
  cases s with
  | nil =>
    cases pat with
    | nil => exact absurd rfl hpat
    | cons a q => simp [lpre] at h
  | cons c s =>
    have hc : (lpre pat (c :: s) && !pat.isEmpty) = true := by
      simp [h]
      cases pat with
      | nil => exact absurd rfl hpat
      | cons a q => simp
    have h1 : 1 ≤ pat.length := by
      cases pat with
      | nil => exact absurd rfl hpat
      | cons a q => simp
    show replaceFuel (c :: s).length (c :: s) pat rep = _
    have : replaceFuel (c :: s).length (c :: s) pat rep =
        rep ++ replaceFuel s.length (List.drop pat.length (c :: s)) pat rep := by
      simp only [List.length_cons, replaceFuel, hc, if_true]
    rw [this]
    congr 1
    exact replaceFuel_irrel s.length (List.drop pat.length (c :: s)).length
      (List.drop pat.length (c :: s)) pat rep
      (by simp only [List.length_drop]; simp; omega)
      (Nat.le_refl _)

theorem pyReplace_cons_of_neg (c : Char) (s pat rep : List Char)
    (h : lpre pat (c :: s) = false) :
    pyReplace (c :: s) pat rep = c :: pyReplace s pat rep := by
  have hc : (lpre pat (c :: s) && !pat.isEmpty) = false := by simp [h]
  show replaceFuel (c :: s).length (c :: s) pat rep = _
  simp only [List.length_cons, replaceFuel, hc, Bool.false_eq_true, if_false]
  rfl

theorem substFuel_irrel (f g : Nat) (s : List Char) (rs : List (UserId × List Char))
    (hf : s.length ≤ f) (hg : s.length ≤ g) :
    substFuel f s rs = substFuel g s rs := by
  induction f generalizing s g with
  | zero =>
    have hs : s = [] := List.eq_nil_of_length_eq_zero (Nat.le_zero.mp hf)
    subst hs
    cases g <;> simp [substFuel]
  | succ f ih =>
    cases s with
    | nil => cases g <;> simp [substFuel]
    | cons c s =>
      cases g with
      | zero => simp at hg
      | succ g =>
        simp only [List.length_cons] at hf hg
        cases hfind : List.find? (fun p => lpre (tokL p.1) (c :: s)) rs with
        | none =>
          simp only [substFuel, hfind]
          rw [ih g s (by omega) (by omega)]
        | some q =>
          have h1 : 1 ≤ (tokL q.1).length := by simp [tokL]
          have hlen : (List.drop (tokL q.1).length (c :: s)).length ≤ f := by
            simp only [List.length_drop, List.length_cons]
            omega
          have hleng : (List.drop (tokL q.1).length (c :: s)).length ≤ g := by
            simp only [List.length_drop, List.length_cons]
            omega
          simp only [substFuel, hfind]
          rw [ih g (List.drop (tokL q.1).length (c :: s)) hlen hleng]

theorem simultSubst_nil (rs : List (UserId × List Char)) : simultSubst [] rs = [] := rfl

theorem simultSubst_match (s : List Char) (rs : List (UserId × List Char))
    (q : UserId × List Char)
    (hfind : List.find? (fun p => lpre (tokL p.1) s) rs = some q) :
    simultSubst s rs =
      ('@' :: q.2) ++ simultSubst (List.drop (tokL q.1).length s) rs := by
  cases s with
  | nil =>
    have hq := List.find?_some hfind
    simp [tokL, lpre] at hq
  | cons c s =>
    have h1 : 1 ≤ (tokL q.1).length := by simp [tokL]
    show substFuel (c :: s).length (c :: s) rs = _
    simp only [List.length_cons, substFuel, hfind]
    congr 1
    exact substFuel_irrel s.length (List.drop (tokL q.1).length (c :: s)).length
      (List.drop (tokL q.1).length (c :: s)) rs
      (by simp only [List.length_drop, List.length_cons]; omega)
      (Nat.le_refl _)

theorem simultSubst_cons_of_none (c : Char) (s : List Char)
    (rs : List (UserId × List Char))
    (hfind : List.find? (fun p => lpre (tokL p.1) (c :: s)) rs = none) :
    simultSubst (c :: s) rs = c :: simultSubst s rs := by
  show substFuel (c :: s).length (c :: s) rs = _
  simp only [List.length_cons, substFuel, hfind]
  rfl

theorem simultSubst_empty_pairs (s : List Char) : simultSubst s [] = s := by
  induction s with
  | nil => rfl
  | cons c s ih => rw [simultSubst_cons_of_none c s [] rfl, ih]

theorem digit_ne_langle (c : Char) (h : c.isDigit = true) : c ≠ '<' := by
  intro he
  rw [he] at h
  exact absurd h (by decide)

theorem digit_ne_rangle (c : Char) (h : c.isDigit = true) : c ≠ '>' := by
  intro he
  rw [he] at h
  exact absurd h (by decide)

theorem digit_ne_atSign (c : Char) (h : c.isDigit = true) : c ≠ '@' := by
  intro he
  rw [he] at h
  exact absurd h (by decide)

theorem digitChar_isDigit (n : Nat) (h : n < 10) : (Nat.digitChar n).isDigit = true := by
  interval_cases n <;> decide

theorem toDigitsCore_digits : ∀ (f n : Nat) (ds : List Char),
    (∀ c ∈ ds, c.isDigit = true) →
    ∀ c ∈ Nat.toDigitsCore 10 f n ds, c.isDigit = true := by
  intro f
  induction f with
  | zero =>
    intro n ds hds c hc
    rw [Nat.toDigitsCore] at hc
    exact hds c hc
  | succ f ih =>
    intro n ds hds c hc
    rw [Nat.toDigitsCore] at hc
    by_cases h0 : n / 10 = 0
    · simp only [h0, if_true] at hc
      rcases List.mem_cons.mp hc with rfl | h
      · exact digitChar_isDigit _ (Nat.mod_lt _ (by norm_num))
      · exact hds _ h
    · simp only [h0, if_false] at hc
      refine ih _ _ ?_ _ hc
      intro e he
      rcases List.mem_cons.mp he with rfl | h
      · exact digitChar_isDigit _ (Nat.mod_lt _ (by norm_num))
      · exact hds _ h

theorem toDigits_digits (n : Nat) : ∀ c ∈ Nat.toDigits 10 n, c.isDigit = true := by
  intro c hc
  exact toDigitsCore_digits (n + 1) n [] (by simp) c (by simpa [Nat.toDigits] using hc)

theorem toDigitsCore_length : ∀ (f n : Nat) (ds : List Char), 0 < f →
    ds.length < (Nat.toDigitsCore 10 f n ds).length := by
  intro f
  induction f with
  | zero => intro n ds h; exact absurd h (by omega)
  | succ f ih =>
    intro n ds _
    rw [Nat.toDigitsCore]
    by_cases h0 : n / 10 = 0
    · simp [h0]
    · simp only [h0, if_false]
      rcases Nat.eq_zero_or_pos f with h1 | hpos
      · subst h1
        rw [Nat.toDigitsCore]
        simp
      · calc ds.length < (Nat.digitChar (n % 10) :: ds).length := by simp
          _ < _ := ih (n / 10) (Nat.digitChar (n % 10) :: ds) hpos

theorem toDigits_ne_nil (n : Nat) : Nat.toDigits 10 n ≠ [] := by
  intro h
  have hlen := toDigitsCore_length (n + 1) n [] (by omega)
  rw [show Nat.toDigitsCore 10 (n + 1) n [] = Nat.toDigits 10 n from rfl, h] at hlen
  simp at hlen

theorem tokL_ne_nil (u : UserId) : tokL u ≠ [] := by simp [tokL]

theorem tokL_length_pos (u : UserId) : 1 ≤ (tokL u).length := by simp [tokL]

theorem tokL_tail_ne_langle (u : UserId) :
    ∀ c ∈ '@' :: (Nat.toDigits 10 u ++ ['>']), c ≠ '<' := by
  intro c hc
  rcases List.mem_cons.mp hc with rfl | hc
  · decide
  · rcases List.mem_append.mp hc with hc | hc
    · exact digit_ne_langle c (toDigits_digits u c hc)
    · simp at hc
      subst hc
      decide

theorem pyReplace_append_left (a b pat rep : List Char)
    (h : ∀ a₁ a₂, a = a₁ ++ a₂ → a₂ ≠ [] → lpre pat (a₂ ++ b) = false) :
    pyReplace (a ++ b) pat rep = a ++ pyReplace b pat rep := by
  induction a with
  | nil => simp
  | cons c a ih =>
    have h0 : lpre pat (c :: (a ++ b)) = false := h [] (c :: a) rfl (by simp)
    rw [List.cons_append, pyReplace_cons_of_neg c (a ++ b) pat rep h0]
    rw [ih (fun a₁ a₂ ha hne => h (c :: a₁) a₂ (by simp [ha]) hne)]
    rfl

theorem simultSubst_append_left (x X : List Char) (rs : List (UserId × List Char))
    (hx : ∀ c ∈ x, c ≠ '<') :
    simultSubst (x ++ X) rs = x ++ simultSubst X rs := by
  induction x with
  | nil => simp
  | cons c x ih =>
    have hfind : List.find? (fun p => lpre (tokL p.1) (c :: (x ++ X))) rs = none := by
      rw [List.find?_eq_none]
      intro p _
      simp only [tokL]
      rw [lpre_cons_of_ne '<' c _ _ (fun he => (hx c (by simp)) he.symm)]
      simp
    rw [List.cons_append, simultSubst_cons_of_none c (x ++ X) rs hfind]
    rw [ih (fun e he => hx e (by simp [he]))]
    rfl

theorem goodName_blocks_digit_run (nm : List Char) :
    ∀ (ds X : List Char), ¬ '>' ∈ nm → (∃ c ∈ nm, ¬ c.isDigit = true) →
      (∀ c ∈ ds, c.isDigit = true) →
      lpre (ds ++ ['>']) (nm ++ X) = false := by
  induction nm with
  | nil =>
    intro ds X _ hnd _
    exact absurd hnd (by simp)
  | cons c nm ih =>
    intro ds X hgt hnd hds
    cases ds with
    | nil =>
      have hne : ('>' : Char) ≠ c := fun he => hgt (by rw [he]; exact List.mem_cons_self c nm)
      simp only [List.nil_append, List.cons_append]
      exact lpre_cons_of_ne '>' c [] (nm ++ X) hne
    | cons d ds =>
      by_cases hdc : d = c
      · subst hdc
        have hdd : d.isDigit = true := hds d (by simp)
        have hnd2 : ∃ c ∈ nm, ¬ c.isDigit = true := by
          obtain ⟨e, he, hend⟩ := hnd
          rcases List.mem_cons.mp he with rfl | he
          · exact absurd hdd hend
          · exact ⟨e, he, hend⟩
        have hgt2 : ¬ '>' ∈ nm := fun h2 => hgt (by simp [h2])
        simp only [List.cons_append, lpre, eq_self_iff_true, if_true]
        exact ih ds X hgt2 hnd2 (fun e he => hds e (by simp [he]))
      · simp only [List.cons_append, lpre]
        rw [if_neg hdc]

theorem find?_congr_pred (l : List α) (p q : α → Bool) (h : ∀ a ∈ l, p a = q a) :
    List.find? p l = List.find? q l := by
  induction l with
  | nil => rfl
  | cons a l ih =>
    have ha := h a (by simp)
    by_cases hp : p a = true
    · have hq : q a = true := by rw [← ha]; exact hp
      rw [List.find?_cons_of_pos l hp, List.find?_cons_of_pos l hq]
    · have hq : ¬ q a = true := by rw [← ha]; exact hp
      rw [List.find?_cons_of_neg l hp, List.find?_cons_of_neg l hq]
      exact ih (fun a ha => h a (by simp [ha]))

theorem pyReplace_keeps_leading_tok (u w : UserId) (nm s : List Char)
    (hu : lpre (tokL u) s = false) (hw : lpre (tokL w) s = true) :
    pyReplace s (tokL u) ('@' :: nm) =
      tokL w ++ pyReplace (List.drop (tokL w).length s) (tokL u) ('@' :: nm) := by
  obtain ⟨X, hX⟩ := (lpre_iff_append _ _).mp hw
  rw [hX] at hu
  rw [hX, List.drop_left]
  apply pyReplace_append_left
  intro a₁ a₂ ha hne
  cases a₁ with
  | nil =>
    simp only [List.nil_append] at ha
    rw [← ha]
    exact hu
  | cons b a₁ =>
    cases a₂ with
    | nil => exact absurd rfl hne
    | cons e a₂ =>
      have ha2 : '<' :: ('@' :: (Nat.toDigits 10 w ++ ['>'])) = b :: (a₁ ++ e :: a₂) := by
        simpa [tokL] using ha
      have htail : '@' :: (Nat.toDigits 10 w ++ ['>']) = a₁ ++ e :: a₂ :=
        (List.cons.injEq _ _ _ _ ▸ ha2).2
      have he : e ∈ '@' :: (Nat.toDigits 10 w ++ ['>']) := by
        rw [htail]
        exact List.mem_append_right a₁ (List.mem_cons_self e a₂)
      have hene : e ≠ '<' := tokL_tail_ne_langle w e he
      rw [List.cons_append]
      simp only [tokL]
      exact lpre_cons_of_ne '<' e _ _ (fun h2 => hene h2.symm)

theorem lpre_digitRun_pyReplace (u : UserId) (nm : List Char)
    (hgt : ¬ '>' ∈ nm) (hnd : ∃ c ∈ nm, ¬ c.isDigit = true) :
    ∀ (k : Nat) (s ds : List Char), s.length ≤ k → (∀ c ∈ ds, c.isDigit = true) →
      lpre (ds ++ ['>']) (pyReplace s (tokL u) ('@' :: nm)) = true →
      lpre (ds ++ ['>']) s = true := by
  intro k
  induction k with
  | zero =>
    intro s ds hs _ h
    have hnil : s = [] := List.eq_nil_of_length_eq_zero (Nat.le_zero.mp hs)
    subst hnil
    rw [pyReplace_nil] at h
    cases ds <;> simp [lpre] at h
  | succ k ih =>
    intro s ds hs hds h
    by_cases hm : lpre (tokL u) s = true
    · exfalso
      rw [pyReplace_match s (tokL u) ('@' :: nm) (tokL_ne_nil u) hm] at h
      cases ds with
      | nil => simp [lpre] at h
      | cons d ds =>
        have hd := digit_ne_atSign d (hds d (by simp))
        simp only [List.cons_append, lpre] at h
        rw [if_neg hd] at h
        exact absurd h (by simp)
    · cases s with
      | nil =>
        rw [pyReplace_nil] at h
        cases ds <;> simp [lpre] at h
      | cons c s =>
        have hm2 : lpre (tokL u) (c :: s) = false := eq_false_of_ne_true hm
        rw [pyReplace_cons_of_neg c s (tokL u) ('@' :: nm) hm2] at h
        simp only [List.length_cons] at hs
        cases ds with
        | nil =>
          by_cases hc : ('>' : Char) = c
          · subst hc
            simp [lpre]
          · simp [lpre, hc] at h
        | cons d ds =>
          by_cases hc : d = c
          · subst hc
            simp only [List.cons_append, lpre, eq_self_iff_true, if_true] at h ⊢
            exact ih s ds (by omega) (fun e he => hds e (by simp [he])) h
          · simp only [List.cons_append, lpre] at h
            rw [if_neg hc] at h
            exact absurd h (by simp)

theorem lpre_atRun_pyReplace (u : UserId) (nm : List Char)
    (hgt : ¬ '>' ∈ nm) (hnd : ∃ c ∈ nm, ¬ c.isDigit = true)
    (s ds : List Char) (hds : ∀ c ∈ ds, c.isDigit = true)
    (h : lpre ('@' :: (ds ++ ['>'])) (pyReplace s (tokL u) ('@' :: nm)) = true) :
    lpre ('@' :: (ds ++ ['>'])) s = true := by
  by_cases hm : lpre (tokL u) s = true
  · exfalso
    rw [pyReplace_match s (tokL u) ('@' :: nm) (tokL_ne_nil u) hm] at h
    simp only [List.cons_append, lpre, eq_self_iff_true, if_true, List.append_eq] at h
    rw [goodName_blocks_digit_run nm ds _ hgt hnd hds] at h
    exact absurd h (by simp)
  · cases s with
    | nil =>
      rw [pyReplace_nil] at h
      simp [lpre] at h
    | cons c s =>
      have hm2 : lpre (tokL u) (c :: s) = false := eq_false_of_ne_true hm
      rw [pyReplace_cons_of_neg c s (tokL u) ('@' :: nm) hm2] at h
      by_cases hc : ('@' : Char) = c
      · subst hc
        simp only [lpre, eq_self_iff_true, if_true] at h ⊢
        exact lpre_digitRun_pyReplace u nm hgt hnd s.length s ds (Nat.le_refl _) hds h
      · simp only [lpre] at h
        rw [if_neg hc] at h
        exact absurd h (by simp)

theorem lpre_tok_pyReplace (u v : UserId) (nm : List Char)
    (hgt : ¬ '>' ∈ nm) (hnd : ∃ c ∈ nm, ¬ c.isDigit = true)
    (s : List Char)
    (h : lpre (tokL v) (pyReplace s (tokL u) ('@' :: nm)) = true) :
    lpre (tokL v) s = true := by
  by_cases hm : lpre (tokL u) s = true
  · exfalso
    rw [pyReplace_match s (tokL u) ('@' :: nm) (tokL_ne_nil u) hm] at h
    simp [tokL, lpre] at h
  · cases s with
    | nil =>
      rw [pyReplace_nil] at h
      simp [tokL, lpre] at h
    | cons c s =>
      have hm2 : lpre (tokL u) (c :: s) = false := eq_false_of_ne_true hm
      rw [pyReplace_cons_of_neg c s (tokL u) ('@' :: nm) hm2] at h
      simp only [tokL] at h ⊢
      by_cases hc : ('<' : Char) = c
      · subst hc
        simp only [lpre, eq_self_iff_true, if_true] at h ⊢
        exact lpre_atRun_pyReplace u nm hgt hnd s (Nat.toDigits 10 v) (toDigits_digits v) h
      · simp only [lpre] at h
        rw [if_neg hc] at h
        exact absurd h (by simp)

theorem goodName_spec (nm : List Char) (h : goodName nm = true) :
    ¬ '<' ∈ nm ∧ ¬ '>' ∈ nm ∧ ∃ c ∈ nm, ¬ c.isDigit = true := by
  simp only [goodName, Bool.and_eq_true, decide_eq_true_eq, List.any_eq_true,
    Bool.not_eq_true'] at h
  refine ⟨h.1.1, h.1.2, ?_⟩
  obtain ⟨c, hc, hcd⟩ := h.2
  exact ⟨c, hc, by simp [hcd]⟩

theorem pyReplace_simultSubst_comm (u : UserId) (nm : List Char)
    (hlt : ¬ '<' ∈ nm) (hgt : ¬ '>' ∈ nm) (hnd : ∃ c ∈ nm, ¬ c.isDigit = true) :
    ∀ (k : Nat) (s : List Char) (rs : List (UserId × List Char)), s.length ≤ k →
      simultSubst (pyReplace s (tokL u) ('@' :: nm)) rs =
        simultSubst s ((u, nm) :: rs) := by
  intro k
  induction k with
  | zero =>
    intro s rs hs
    have hnil : s = [] := List.eq_nil_of_length_eq_zero (Nat.le_zero.mp hs)
    subst hnil
    rw [pyReplace_nil]
    rfl
  | succ k ih =>
    intro s rs hs
    by_cases hm : lpre (tokL u) s = true
    · have hlen : (List.drop (tokL u).length s).length ≤ k := by
        have h1 := tokL_length_pos u
        have h2 := lpre_length_le _ _ hm
        simp only [List.length_drop]
        omega
      have hx : ∀ c ∈ '@' :: nm, c ≠ '<' := by
        intro c hc
        rcases List.mem_cons.mp hc with rfl | hc
        · decide
        · exact fun he => hlt (he ▸ hc)
      rw [pyReplace_match s (tokL u) ('@' :: nm) (tokL_ne_nil u) hm]
      rw [simultSubst_append_left ('@' :: nm) _ rs hx]
      rw [simultSubst_match s ((u, nm) :: rs) (u, nm) (List.find?_cons_of_pos rs hm)]
      rw [ih (List.drop (tokL u).length s) rs hlen]
    · cases s with
      | nil =>
        rw [pyReplace_nil]
        rfl
      | cons c s =>
        have hm2 : lpre (tokL u) (c :: s) = false := eq_false_of_ne_true hm
        simp only [List.length_cons] at hs
        cases hfind : List.find? (fun p => lpre (tokL p.1) (c :: s)) rs with
        | some q =>
          have hq : lpre (tokL q.1) (c :: s) = true := by
            simpa using List.find?_some hfind
          have hrepl := pyReplace_keeps_leading_tok u q.1 nm (c :: s) hm2 hq
          have hpt : ∀ p ∈ rs,
              lpre (tokL p.1) (pyReplace (c :: s) (tokL u) ('@' :: nm)) =
                lpre (tokL p.1) (c :: s) := by
            intro p _
            cases hb : lpre (tokL p.1) (c :: s) with
            | true =>
              rw [pyReplace_keeps_leading_tok u p.1 nm (c :: s) hm2 hb, lpre_append_self]
            | false =>
              cases hb2 : lpre (tokL p.1) (pyReplace (c :: s) (tokL u) ('@' :: nm)) with
              | false => rfl
              | true =>
                exact absurd (lpre_tok_pyReplace u p.1 nm hgt hnd (c :: s) hb2)
                  (by simp [hb])
          have hfind2 : List.find?
              (fun p => lpre (tokL p.1) (pyReplace (c :: s) (tokL u) ('@' :: nm))) rs =
                some q := by
            rw [find?_congr_pred rs _ _ hpt]
            exact hfind
          rw [simultSubst_match _ rs q hfind2]
          have hfind3 : List.find? (fun p => lpre (tokL p.1) (c :: s)) ((u, nm) :: rs) =
              some q := by
            rw [List.find?_cons_of_neg rs (by simp [hm2])]
            exact hfind
          rw [simultSubst_match (c :: s) ((u, nm) :: rs) q hfind3]
          congr 1
          rw [hrepl, List.drop_left]
          exact ih _ rs (by
            have h1 := tokL_length_pos q.1
            simp only [List.length_drop, List.length_cons]
            omega)
        | none =>
          rw [pyReplace_cons_of_neg c s (tokL u) ('@' :: nm) hm2]
          have hfind2 : List.find?
              (fun p => lpre (tokL p.1) (c :: pyReplace s (tokL u) ('@' :: nm))) rs =
                none := by
            rw [List.find?_eq_none]
            intro p hp hcontra
            rw [← pyReplace_cons_of_neg c s (tokL u) ('@' :: nm) hm2] at hcontra
            have hkeep := lpre_tok_pyReplace u p.1 nm hgt hnd (c :: s) hcontra
            rw [List.find?_eq_none] at hfind
            exact hfind p hp hkeep
          rw [simultSubst_cons_of_none c _ rs hfind2]
          have hfind3 : List.find? (fun p => lpre (tokL p.1) (c :: s)) ((u, nm) :: rs) =
              none := by
            rw [List.find?_cons_of_neg rs (by simp [hm2])]
            exact hfind
          rw [simultSubst_cons_of_none c s ((u, nm) :: rs) hfind3]
          rw [ih s rs (by omega)]

theorem format_mentionsL_eq_simult (mentions : List UserId) :
    ∀ (content : List Char) (resolve : UserId → Option (List Char)),
      (∀ u ∈ mentions, ∀ nm, resolve u = some nm → goodName nm = true) →
      format_mentionsL content mentions resolve =
        simultSubst content (resolvedPairs mentions resolve) := by
  induction mentions with
  | nil =>
    intro content resolve _
    rw [show resolvedPairs [] resolve = [] from rfl, simultSubst_empty_pairs]
    rfl
  | cons u ms ih =>
    intro content resolve h
    cases hr : resolve u with
    | none =>
      have hpairs : resolvedPairs (u :: ms) resolve = resolvedPairs ms resolve := by
        simp [resolvedPairs, hr]
      simp only [format_mentionsL, hr]
      rw [hpairs]
      exact ih content resolve (fun v hv nm h2 => h v (by simp [hv]) nm h2)
    | some nm =>
      have hnm := goodName_spec nm (h u (by simp) nm hr)
      have hpairs : resolvedPairs (u :: ms) resolve = (u, nm) :: resolvedPairs ms resolve := by
        simp [resolvedPairs, hr]
      simp only [format_mentionsL, hr]
      rw [ih (pyReplace content (tokL u) ('@' :: nm)) resolve
        (fun v hv nm2 h2 => h v (by simp [hv]) nm2 h2)]
      rw [hpairs]
      exact pyReplace_simultSubst_comm u nm hnm.1 hnm.2.1 hnm.2.2 content.length content
        (resolvedPairs ms resolve) (Nat.le_refl _)

theorem dictGet_map_some (l : List (GuildId × Channel)) (k : GuildId) :
    dictGet (l.map (fun b => (b.1, some b.2))) k = (dictGet l k).map some := by
  induction l with
  | nil => rfl
  | cons b l ih =>
    by_cases hb : b.1 = k
    · simp [dictGet, hb]
    · simp [dictGet, hb, ih]

theorem filter_key_map_some (l : List (GuildId × Channel)) (p : GuildId → Bool) :
    (l.map (fun b => (b.1, some b.2))).filter (fun b => p b.1) =
      (l.filter (fun b => p b.1)).map (fun b => (b.1, some b.2)) := by
  induction l with
  | nil => rfl
  | cons b l ih =>
    by_cases hb : p b.1 = true
    · simp [List.filter_cons, hb, ih]
    · simp [List.filter_cons, hb, ih]

theorem omapM_sendBuild (env : Env) (msg : Message) (l : List (GuildId × Channel)) :
    omapM (fun b => match b.2 with
      | none => none
      | some ch => some (ch, relayText env msg ch)) (l.map (fun b => (b.1, some b.2))) =
      some (l.map (fun b => (b.2, relayText env msg b.2))) := by
  induction l with
  | nil => rfl
  | cons b l ih => simp [omapM, ih]

theorem countP_keys_nodup (l : List (GuildId × Channel))
    (h : (l.map Prod.fst).Nodup) :
    ∀ b ∈ l, l.countP (fun q => decide (q.1 = b.1)) = 1 := by
  induction l with
  | nil => intro b hb; simp at hb
  | cons p l ih =>
    intro b hb
    simp only [List.map_cons, List.nodup_cons] at h
    rcases List.mem_cons.mp hb with rfl | hb
    · rw [List.countP_cons]
      have hz : l.countP (fun q => decide (q.1 = b.1)) = 0 := by
        rw [List.countP_eq_zero]
        intro a ha
        simp only [decide_eq_true_eq]
        intro he
        exact h.1 (by rw [← he]; exact List.mem_map_of_mem Prod.fst ha)
      simp [hz]
    · rw [List.countP_cons]
      have hne : ¬ p.1 = b.1 := by
        intro he
        exact h.1 (by rw [he]; exact List.mem_map_of_mem Prod.fst hb)
      rw [ih h.2 b hb]
      simp [hne]

theorem omapM_saveInner (env : Env) (v : List (GuildId × ChannelId))
    (h : ∀ gc ∈ v, ∃ ch, env.getChannel gc.2 = some ch ∧ ch.id = gc.2) :
    omapM (fun gc => match gc.2 with
      | none => none
      | some ch => some (gc.1, ch.id)) (v.map (fun gc => (gc.1, env.getChannel gc.2))) =
      some v := by
  induction v with
  | nil => rfl
  | cons gc v ih =>
    obtain ⟨ch, hch, hid⟩ := h gc (by simp)
    simp only [List.map_cons, omapM, hch]
    rw [ih (fun gc2 hgc2 => h gc2 (by simp [hgc2]))]
    simp [hid]

/-- Sample Discord environment used to instantiate the theorems: guild 1 is
named GuildA, guild 2 is named GuildB, user 123 is a member of guild 2 with
display name Bob, channels 10 and 20 resolve. -/
def sampleEnv : Env :=
  { guildName := fun g => if g = 1 then "GuildA" else "GuildB",
    member := fun g u => if g = 2 ∧ u = 123 then some "Bob" else none,
    getChannel := fun cid =>
      if cid = 10 then some ⟨10, 1⟩ else if cid = 20 then some ⟨20, 2⟩ else none,
    botUser := 999 }

/-- Channel bound by guild 1. -/
def chanA : Channel := ⟨10, 1⟩

/-- Channel bound by guild 2. -/
def chanB : Channel := ⟨20, 2⟩

/-- Sample bot state: guilds 1 and 2 share group alpha, both bindings
enabled. -/
def sampleState : BotState :=
  { group_mappings := [("alpha", [(1, some chanA), (2, some chanB)])],
    relay_enabled := [("alpha", [(1, true), (2, true)])],
    server_groups := [(1, "alpha"), (2, "alpha")] }

/-- Sample message posted in the bound channel of guild 1, mentioning user
123. -/
def sampleMsg : Message :=
  { authorId := 5, authorDisplayName := "X", guildId := 1, channelId := 10,
    content := "hello <@123>", mentions := [123] }

/-- Claim C1: when a message is posted in the channel stored in the origin
guild enabled binding of its group, `handle` produces exactly one outbound
send per other enabled binding of the group, in binding order, and the text
of each copy is `"[" + origin guild name + "] " + author display name +
": " + body rewritten for that target audience`.  The binding table of the
group is given in resolved form (`gmR`), and the second conjunct states the
exactly-one property per qualifying target under the dictionary invariant
that guild keys are unique. -/
theorem relay_fanout_exact :
    ∀ (st : BotState) (env : Env) (msg : Message) (g : GroupId)
      (gmR : List (GuildId × Channel)) (re : List (GuildId × Bool)) (och : Channel),
      dictGet st.server_groups msg.guildId = some g →
      g ≠ "" →
      dictGet st.group_mappings g = some (gmR.map (fun b => (b.1, some b.2))) →
      dictGet st.relay_enabled g = some re →
      dictGet gmR msg.guildId = some och →
      dictGet re msg.guildId = some true →
      msg.channelId = och.id →
      handle st env msg =
        (st, some ((gmR.filter
            (fun b => !(decide (b.1 = msg.guildId)) && (dictGet re b.1).getD false)).map
          (fun b => (b.2, relayText env msg b.2)))) ∧
      ((gmR.map Prod.fst).Nodup →
        ∀ b ∈ gmR, ¬ b.1 = msg.guildId → (dictGet re b.1).getD false = true →
          (b.2, relayText env msg b.2) ∈ (gmR.filter
              (fun q => !(decide (q.1 = msg.guildId)) && (dictGet re q.1).getD false)).map
            (fun q => (q.2, relayText env msg q.2)) ∧
          (gmR.filter
              (fun q => !(decide (q.1 = msg.guildId)) && (dictGet re q.1).getD false)).countP
            (fun q => decide (q.1 = b.1)) = 1) := by
  intro st env msg g gmR re och hsg hge hgm hre ho hen hch
  constructor
  · simp only [handle, hsg, hgm, hre, if_neg hge]
    rw [dictGet_map_some gmR msg.guildId, ho]
    simp only [Option.map_some', hen, Option.getD_some, if_true]
    rw [if_pos hch]
    rw [filter_key_map_some gmR
      (fun k => !(decide (k = msg.guildId)) && (dictGet re k).getD false)]
    rw [omapM_sendBuild env msg]
  · intro hnd b hb hbneq hben
    constructor
    · apply List.mem_map_of_mem
      rw [List.mem_filter]
      exact ⟨hb, by simp [hbneq, hben]⟩
    · apply countP_keys_nodup
      · exact List.Nodup.sublist (List.Sublist.map Prod.fst (List.filter_sublist gmR)) hnd
      · rw [List.mem_filter]
        exact ⟨hb, by simp [hbneq, hben]⟩

/-- Witness for C1: the spec section 8 scenario.  Guild 1 and guild 2 share
group alpha; a message in channel 10 mentioning user 123 (a member of guild
2 named Bob) yields exactly the copy
`"[GuildA] X: hello @Bob"` in channel 20. -/
theorem relay_fanout_exact_witness :
    handle sampleState sampleEnv sampleMsg =
      (sampleState, some [(chanB, "[GuildA] X: hello @Bob")]) := by
  have h := relay_fanout_exact sampleState sampleEnv sampleMsg "alpha"
    [(1, chanA), (2, chanB)] [(1, true), (2, true)] chanA
    (by decide) (by decide) (by decide) (by decide) (by decide) (by decide) (by decide)
  rw [h.1]
  decide

/-- Claim C2: an inbound message whose origin guild has no group assignment,
or no binding in its group, or a disabled binding, or whose channel differs
from the bound channel reference, produces no sends, and the state component
is returned unchanged (the relay block performs no assignment). -/
theorem handle_ineligible_noop :
    ∀ (st : BotState) (env : Env) (msg : Message),
      (dictGet st.server_groups msg.guildId = none → handle st env msg = (st, some [])) ∧
      (∀ g, dictGet st.server_groups msg.guildId = some g →
        dictGet st.group_mappings g = none → handle st env msg = (st, some [])) ∧
      (∀ g gm, dictGet st.server_groups msg.guildId = some g →
        dictGet st.group_mappings g = some gm → dictGet gm msg.guildId = none →
        handle st env msg = (st, some [])) ∧
      (∀ g gm oc re, dictGet st.server_groups msg.guildId = some g →
        dictGet st.group_mappings g = some gm → dictGet gm msg.guildId = some oc →
        dictGet st.relay_enabled g = some re → dictGet re msg.guildId = some false →
        handle st env msg = (st, some [])) ∧
      (∀ g gm och re, dictGet st.server_groups msg.guildId = some g →
        dictGet st.group_mappings g = some gm →
        dictGet gm msg.guildId = some (some och) →
        dictGet st.relay_enabled g = some re → dictGet re msg.guildId = some true →
        ¬ msg.channelId = och.id → handle st env msg = (st, some [])) := by
  intro st env msg
  refine ⟨?_, ?_, ?_, ?_, ?_⟩
  · intro hsg
    simp [handle, hsg]
  · intro g hsg hgm
    by_cases hge : g = ""
    · simp [handle, hsg, hge]
    · simp [handle, hsg, hgm, hge]
  · intro g gm hsg hgm horig
    by_cases hge : g = ""
    · simp [handle, hsg, hge]
    · simp [handle, hsg, hgm, horig, hge]
  · intro g gm oc re hsg hgm horig hre hen
    by_cases hge : g = ""
    · simp [handle, hsg, hge]
    · simp [handle, hsg, hgm, horig, hre, hen, hge]
  · intro g gm och re hsg hgm horig hre hen hch
    by_cases hge : g = ""
    · simp [handle, hsg, hge]
    · simp [handle, hsg, hgm, horig, hre, hen, hge, hch]

/-- Witness for C2: a message posted in channel 11 of guild 1 (whose binding
stores channel 10) is not relayed. -/
theorem handle_ineligible_noop_witness :
    handle sampleState sampleEnv { sampleMsg with channelId := 11 } =
      (sampleState, some []) := by
  have h := handle_ineligible_noop sampleState sampleEnv
    { sampleMsg with channelId := 11 }
  exact h.2.2.2.2 "alpha" [(1, some chanA), (2, some chanB)] chanA
    [(1, true), (2, true)] (by decide) (by decide) (by decide) (by decide)
    (by decide) (by decide)

/-- Counterexample for Claim C3 as stated: the rewriter applies the
per-user replacements sequentially, so when the display name resolved for
the first mentioned user itself contains the mention token of the second
mentioned user, the second replacement rewrites text that came from the
first display name.  With body `<@1>`, mentions `[1, 2]`, user 1 resolving
to display name `<@2>` and user 2 to `Bob`, the code produces `@@Bob`,
whereas replacing every token occurrence with `"@" + display name` and
changing nothing else would produce `@<@2>`. -/
theorem format_mentions_sequential_cx :
    format_mentions "<@1>" [1, 2]
        (fun u => if u = 1 then some "<@2>" else if u = 2 then some "Bob" else none) =
      "@@Bob" ∧
    rewriteSimultaneous "<@1>" [1, 2]
        (fun u => if u = 1 then some "<@2>" else if u = 2 then some "Bob" else none) =
      "@<@2>" ∧
    format_mentions "<@1>" [1, 2]
        (fun u => if u = 1 then some "<@2>" else if u = 2 then some "Bob" else none) ≠
      rewriteSimultaneous "<@1>" [1, 2]
        (fun u => if u = 1 then some "<@2>" else if u = 2 then some "Bob" else none) := by
  refine ⟨by decide, by decide, by decide⟩

/-- Claim C3 (amended): provided every display name the destination audience
resolves contains neither `<` nor `>` and is not made of digits alone,
`format_mentions` equals the simultaneous rewriting the claim describes:
every occurrence of each resolved mentioned user token is replaced by
`"@" + display name`, tokens of unresolved users are left unchanged, only
exact full tokens match, and no other part of the body changes
(`rewriteSimultaneous` is that specification, defined as a single
left-to-right scan). -/
theorem format_mentions_eq_rewriteSimultaneous :
    ∀ (content : String) (mentions : List UserId) (resolve : UserId → Option String),
      (∀ u ∈ mentions, ∀ nm, resolve u = some nm → goodNameS nm = true) →
      format_mentions content mentions resolve =
        rewriteSimultaneous content mentions resolve := by
  intro content mentions resolve h
  unfold format_mentions rewriteSimultaneous
  congr 1
  apply format_mentionsL_eq_simult
  intro u hu nm hnm
  cases hr : resolve u with
  | none => rw [hr] at hnm; simp at hnm
  | some s =>
    rw [hr] at hnm
    simp only [Option.map_some', Option.some.injEq] at hnm
    subst hnm
    simpa [goodNameS] using h u hu s hr

/-- Witness for C3: with display name Bob (no angle brackets, not all
digits) the sequential rewriter and the simultaneous specification agree;
both occurrences of the resolved token are replaced, the unresolved token
`<@7>` is untouched. -/
theorem format_mentions_eq_rewriteSimultaneous_witness :
    format_mentions "hi <@5> bye <@5> and <@7>" [5, 7]
        (fun u => if u = 5 then some "Bob" else none) =
      rewriteSimultaneous "hi <@5> bye <@5> and <@7>" [5, 7]
        (fun u => if u = 5 then some "Bob" else none) := by
  apply format_mentions_eq_rewriteSimultaneous
  intro u hu nm h
  by_cases h5 : u = 5
  · rw [if_pos h5] at h
    have hb := Option.some.inj h
    rw [← hb]
    decide
  · rw [if_neg h5] at h
    exact absurd h (by simp)

/-- Counterexample for Claim C4 as stated: a send that fails with
`discord.HTTPException` jumps to the handler before the
`asyncio.sleep(1)` of line 149, so the failing task performs no pause at
all, while the claim demands the pause on failure as well. -/
theorem relay_message_failure_skips_pause_cx :
    (relay_message ⟨20, 2⟩ SendOutcome.httpError).sleptSeconds = [] ∧
    (relay_message ⟨20, 2⟩ SendOutcome.httpError).sleptSeconds ≠ [1] := by
  refine ⟨rfl, by decide⟩

/-- Claim C4 (amended): after a successful send the task pauses for the
fixed one-time-unit rate-limit interval before completing; when the send
fails the raised exception skips the pause and the task completes without
sleeping.  Either way the send is entered exactly once. -/
theorem relay_message_pause_after_send :
    ∀ target : Channel,
      (relay_message target SendOutcome.ok).sleptSeconds = [1] ∧
      (relay_message target SendOutcome.httpError).sleptSeconds = [] ∧
      (relay_message target SendOutcome.ok).sendAttempts = 1 ∧
      (relay_message target SendOutcome.httpError).sendAttempts = 1 := by
  intro target
  exact ⟨rfl, rfl, rfl, rfl⟩

/-- Claim C5: dispatch tasks are isolated.  Each computed send is attempted
exactly once whatever the outcomes of the other targets are, a transport
failure is logged and neither retried nor re-raised, a target whose own
send succeeds receives its copy, and the gather over all tasks reports no
aggregate failure. -/
theorem dispatch_isolates_failures :
    ∀ (sends : List (Channel × String)) (outcome : Channel → SendOutcome),
      (dispatchAll sends outcome).map (fun p => (p.1, p.2.1)) = sends ∧
      (∀ p ∈ dispatchAll sends outcome,
        p.2.2.sendAttempts = 1 ∧ p.2.2.raised = false) ∧
      (∀ p ∈ dispatchAll sends outcome, outcome p.1 = SendOutcome.httpError →
        p.2.2.sent = false ∧ p.2.2.loggedError = true) ∧
      (∀ p ∈ dispatchAll sends outcome, outcome p.1 = SendOutcome.ok →
        p.2.2.sent = true) ∧
      gatherRaised (dispatchAll sends outcome) = false := by
  intro sends outcome
  refine ⟨?_, ?_, ?_, ?_, ?_⟩
  · induction sends with
    | nil => rfl
    | cons p l ih => simpa [dispatchAll] using ih
  · intro p hp
    simp only [dispatchAll, List.mem_map] at hp
    obtain ⟨q, _, rfl⟩ := hp
    cases outcome q.1 <;> simp [relay_message]
  · intro p hp ho
    simp only [dispatchAll, List.mem_map] at hp
    obtain ⟨q, _, rfl⟩ := hp
    simp only at ho
    simp [relay_message, ho]
  · intro p hp ho
    simp only [dispatchAll, List.mem_map] at hp
    obtain ⟨q, _, rfl⟩ := hp
    simp only at ho
    simp [relay_message, ho]
  · rw [gatherRaised, List.any_eq_false]
    intro p hp
    simp only [dispatchAll, List.mem_map] at hp
    obtain ⟨q, _, rfl⟩ := hp
    cases outcome q.1 <;> simp [relay_message]

/-- Witness for C5: two targets, the first failing; the join reports no
failure and both sends are present with their content. -/
theorem dispatch_isolates_failures_witness :
    gatherRaised (dispatchAll [(⟨10, 1⟩, "a"), (⟨20, 2⟩, "b")]
      (fun ch => if ch.id = 10 then SendOutcome.httpError else SendOutcome.ok)) = false ∧
    (dispatchAll [(⟨10, 1⟩, "a"), (⟨20, 2⟩, "b")]
      (fun ch => if ch.id = 10 then SendOutcome.httpError else SendOutcome.ok)).map
        (fun p => (p.1, p.2.1)) = [(⟨10, 1⟩, "a"), (⟨20, 2⟩, "b")] := by
  have h := dispatch_isolates_failures [(⟨10, 1⟩, "a"), (⟨20, 2⟩, "b")]
    (fun ch => if ch.id = 10 then SendOutcome.httpError else SendOutcome.ok)
  exact ⟨h.2.2.2.2, h.1⟩

/-- Claim C6: loading a persisted document in which every stored channel id
resolves (to the channel carrying that id, as `bot.get_channel` does) and
saving again reproduces the identical document, including the insertion
order of every group binding list, which association lists preserve. -/
theorem save_load_roundtrip :
    ∀ (env : Env) (st : BotState) (d : PersistedDoc),
      (∀ kv ∈ d.group_mappings, ∀ gc ∈ kv.2,
        ∃ ch, env.getChannel gc.2 = some ch ∧ ch.id = gc.2) →
      save_settings (load_settings (some (docToRaw d)) env st).1 = some d := by
  intro env st d h
  obtain ⟨gms, res, sgs⟩ := d
  simp only [docToRaw] at h ⊢
  show save_settings
      { group_mappings := parseGM env gms, relay_enabled := res,
        server_groups := sgs } = _
  have houter : omapM (fun kv =>
      match omapM (fun gc =>
          match gc.2 with
          | none => none
          | some ch => some (gc.1, ch.id)) kv.2 with
      | none => none
      | some inner => some (kv.1, inner)) (parseGM env gms) = some gms := by
    unfold parseGM
    induction gms with
    | nil => rfl
    | cons kv l ih =>
      simp only [List.map_cons, omapM]
      rw [omapM_saveInner env kv.2 (h kv (by simp))]
      rw [ih (fun kv2 hkv2 gc hgc => h kv2 (by simp [hkv2]) gc hgc)]
    
  simp only [save_settings, houter]

/-- Witness for C6: a two-binding document round-trips through the sample
environment, in which channel 10 belongs to guild 1 and channel 20 to
guild 2. -/
theorem save_load_roundtrip_witness :
    save_settings (load_settings (some (docToRaw
      ⟨[("alpha", [(1, 10), (2, 20)])],
       [("alpha", [(1, true), (2, false)])],
       [(1, "alpha"), (2, "alpha")]⟩)) sampleEnv ⟨[], [], []⟩).1 =
      some ⟨[("alpha", [(1, 10), (2, 20)])],
            [("alpha", [(1, true), (2, false)])],
            [(1, "alpha"), (2, "alpha")]⟩ := by
  apply save_load_roundtrip
  intro kv hkv gc hgc
  fin_cases hkv
  fin_cases hgc
  · exact ⟨⟨10, 1⟩, rfl, rfl⟩
  · exact ⟨⟨20, 2⟩, rfl, rfl⟩

/-- Counterexample for Claim C7 as stated: a snapshot read that fails after
the `group_mappings` assignment of line 35 (here: the `relay_enabled` key is
missing) leaves the in-memory state in part replaced, not unchanged; the
error is still caught and logged. -/
theorem load_midway_failure_cx :
    (load_settings (some ⟨some [], none, none⟩) sampleEnv sampleState).1 ≠
      sampleState ∧
    (load_settings (some ⟨some [], none, none⟩) sampleEnv sampleState).2 =
      LoadLog.loadError := by
  refine ⟨by decide, rfl⟩

/-- Claim C7 (amended): every snapshot read failure is caught and logged and
`load_settings` returns normally (the process keeps serving and nothing
reaches an end user); a missing file or a failure before the first field
parses leaves the in-memory state unchanged, while a failure after some
global assignments of lines 35-37 have run leaves exactly the fields
assigned so far replaced.  `save_settings` reads the globals and never
assigns them, so a write failure changes no in-memory state. -/
theorem load_settings_failure_modes :
    ∀ (env : Env) (st : BotState) (raw : RawDoc),
      (load_settings none env st = (st, LoadLog.fileNotFound)) ∧
      (raw.group_mappings = none →
        load_settings (some raw) env st = (st, LoadLog.loadError)) ∧
      (∀ gm, raw.group_mappings = some gm → raw.relay_enabled = none →
        load_settings (some raw) env st =
          ({ st with group_mappings := parseGM env gm }, LoadLog.loadError)) ∧
      (∀ gm re, raw.group_mappings = some gm → raw.relay_enabled = some re →
        raw.server_groups = none →
        load_settings (some raw) env st =
          ({ st with group_mappings := parseGM env gm, relay_enabled := re },
            LoadLog.loadError)) ∧
      (∀ gm re sg, raw.group_mappings = some gm → raw.relay_enabled = some re →
        raw.server_groups = some sg →
        load_settings (some raw) env st =
          ({ group_mappings := parseGM env gm, relay_enabled := re,
             server_groups := sg }, LoadLog.loaded)) := by
  intro env st raw
  refine ⟨rfl, ?_, ?_, ?_, ?_⟩
  · intro hgm
    simp [load_settings, hgm]
  · intro gm hgm hre
    simp [load_settings, hgm, hre]
  · intro gm re hgm hre hsg
    simp [load_settings, hgm, hre, hsg]
  · intro gm re sg hgm hre hsg
    simp [load_settings, hgm, hre, hsg]

/-- Witness for C7: a document with `group_mappings` and `relay_enabled`
present but `server_groups` missing replaces exactly those two fields and
logs the error. -/
theorem load_settings_failure_modes_witness :
    load_settings (some ⟨some [("beta", [])], some [("beta", [])], none⟩)
        sampleEnv sampleState =
      (⟨parseGM sampleEnv [("beta", [])], [("beta", [])], sampleState.server_groups⟩,
        LoadLog.loadError) := by
  exact (load_settings_failure_modes sampleEnv sampleState
    ⟨some [("beta", [])], some [("beta", [])], none⟩).2.2.2.1
    [("beta", [])] [("beta", [])] rfl rfl rfl

/-- Claim C8: when the invoking guild has no enabled-table entry in its
current (truthy) group, `/enable` and `/disable` reply with the guidance
text, mutate nothing and trigger no save; when the entry exists they set it
in place to `True` respectively `False` and save.  The hypothesis that the
empty group id owns no entry holds in every state the program builds,
because `/setsharedchannel` refuses to bind before a nonempty group id is
set. -/
theorem enable_disable_nobinding :
    ∀ (st : BotState) (guild : GuildId),
      dictGet st.relay_enabled "" = none →
      ((hasEnabledEntry st guild = false →
          enable_relay st guild = ⟨st, Reply.notSetUpGuidance, false⟩ ∧
          disable_relay st guild = ⟨st, Reply.notSetUpGuidance, false⟩) ∧
        (∀ g re, dictGet st.server_groups guild = some g →
          dictGet st.relay_enabled g = some re → (dictGet re guild).isSome = true →
          enable_relay st guild =
            ⟨{ st with relay_enabled := dictSet st.relay_enabled g (dictSet re guild true) },
              Reply.enabledMsg g, true⟩ ∧
          disable_relay st guild =
            ⟨{ st with relay_enabled := dictSet st.relay_enabled g (dictSet re guild false) },
              Reply.disabledMsg g, true⟩)) := by
  intro st guild hwf
  constructor
  · intro habs
    cases hsg : dictGet st.server_groups guild with
    | none => exact ⟨by simp [enable_relay, hsg], by simp [disable_relay, hsg]⟩
    | some g =>
      by_cases hge : g = ""
      · exact ⟨by simp [enable_relay, hsg, hge], by simp [disable_relay, hsg, hge]⟩
      · cases hre : dictGet st.relay_enabled g with
        | none =>
          exact ⟨by simp [enable_relay, hsg, hge, hre],
            by simp [disable_relay, hsg, hge, hre]⟩
        | some re =>
          have hiso : (dictGet re guild).isSome = false := by
            have := habs
            simp only [hasEnabledEntry, hsg, hre, if_neg hge] at this
            exact this
          exact ⟨by simp [enable_relay, hsg, hge, hre, hiso],
            by simp [disable_relay, hsg, hge, hre, hiso]⟩
  · intro g re hsg hre hiso
    have hge : g ≠ "" := by
      intro he
      rw [he, hwf] at hre
      exact Option.noConfusion hre
    exact ⟨by simp [enable_relay, hsg, hge, hre, hiso],
      by simp [disable_relay, hsg, hge, hre, hiso]⟩

/-- Witness for C8: in the sample state guild 3 has no group, so `/enable`
replies with guidance and nothing changes; guild 1 has a binding, so
`/disable` flips exactly its flag and saves. -/
theorem enable_disable_nobinding_witness :
    enable_relay sampleState 3 = ⟨sampleState, Reply.notSetUpGuidance, false⟩ ∧
    disable_relay sampleState 1 =
      ⟨{ sampleState with relay_enabled := [("alpha", [(1, false), (2, true)])] },
        Reply.disabledMsg "alpha", true⟩ := by
  have h1 := (enable_disable_nobinding sampleState 3 (by decide)).1 (by decide)
  have h2 := ((enable_disable_nobinding sampleState 1 (by decide)).2 "alpha"
    [(1, true), (2, true)] (by decide) (by decide) (by decide)).2
  refine ⟨h1.1, ?_⟩
  rw [h2]
  decide


theorem enable_relay_frame_gm (st : BotState) (guild : GuildId) :
    (enable_relay st guild).state.group_mappings = st.group_mappings := by
  unfold enable_relay
  cases hsg : dictGet st.server_groups guild with
  | none => rfl
  | some g =>
    by_cases hge : g = ""
    · simp [hge]
    · cases hre : dictGet st.relay_enabled g with
      | none => simp [if_neg hge, hre]
      | some re =>
        by_cases hiso : (dictGet re guild).isSome
        · simp [if_neg hge, hre, hiso]
        · simp [if_neg hge, hre, hiso]

theorem enable_relay_frame_sg (st : BotState) (guild : GuildId) :
    (enable_relay st guild).state.server_groups = st.server_groups := by
  unfold enable_relay
  cases hsg : dictGet st.server_groups guild with
  | none => rfl
  | some g =>
    by_cases hge : g = ""
    · simp [hge]
    · cases hre : dictGet st.relay_enabled g with
      | none => simp [if_neg hge, hre]
      | some re =>
        by_cases hiso : (dictGet re guild).isSome
        · simp [if_neg hge, hre, hiso]
        · simp [if_neg hge, hre, hiso]

theorem disable_relay_frame_gm (st : BotState) (guild : GuildId) :
    (disable_relay st guild).state.group_mappings = st.group_mappings := by
  unfold disable_relay
  cases hsg : dictGet st.server_groups guild with
  | none => rfl
  | some g =>
    by_cases hge : g = ""
    · simp [hge]
    · cases hre : dictGet st.relay_enabled g with
      | none => simp [if_neg hge, hre]
      | some re =>
        by_cases hiso : (dictGet re guild).isSome
        · simp [if_neg hge, hre, hiso]
        · simp [if_neg hge, hre, hiso]

theorem disable_relay_frame_sg (st : BotState) (guild : GuildId) :
    (disable_relay st guild).state.server_groups = st.server_groups := by
  unfold disable_relay
  cases hsg : dictGet st.server_groups guild with
  | none => rfl
  | some g =>
    by_cases hge : g = ""
    · simp [hge]
    · cases hre : dictGet st.relay_enabled g with
      | none => simp [if_neg hge, hre]
      | some re =>
        by_cases hiso : (dictGet re guild).isSome
        · simp [if_neg hge, hre, hiso]
        · simp [if_neg hge, hre, hiso]

theorem enable_relay_frame_flag (st : BotState) (guild : GuildId)
    (g2 : GroupId) (guild2 : GuildId)
    (h : ¬ (dictGet st.server_groups guild = some g2 ∧ guild2 = guild)) :
    relayFlag (enable_relay st guild).state g2 guild2 = relayFlag st g2 guild2 := by
  unfold enable_relay
  cases hsg : dictGet st.server_groups guild with
  | none => rfl
  | some g =>
    by_cases hge : g = ""
    · simp [hge]
    · cases hre : dictGet st.relay_enabled g with
      | none => simp [if_neg hge, hre]
      | some re =>
        by_cases hiso : (dictGet re guild).isSome
        · simp only [if_neg hge, hre, hiso, if_true]
          by_cases hg2 : g2 = g
          · subst hg2
            have hguild2 : ¬ guild2 = guild := fun he => h ⟨hsg, he⟩
            have e1 : dictGet (dictSet st.relay_enabled g2 (dictSet re guild true)) g2 =
                some (dictSet re guild true) := dictGet_dictSet_self _ _ _
            have e2 : dictGet (dictSet re guild true) guild2 = dictGet re guild2 :=
              dictGet_dictSet_ne _ _ _ _ hguild2
            simp [relayFlag, e1, e2, hre]
          · have e1 : dictGet (dictSet st.relay_enabled g (dictSet re guild true)) g2 =
                dictGet st.relay_enabled g2 := dictGet_dictSet_ne _ _ _ _ hg2
            simp [relayFlag, e1]
        · simp [if_neg hge, hre, hiso]

theorem disable_relay_frame_flag (st : BotState) (guild : GuildId)
    (g2 : GroupId) (guild2 : GuildId)
    (h : ¬ (dictGet st.server_groups guild = some g2 ∧ guild2 = guild)) :
    relayFlag (disable_relay st guild).state g2 guild2 = relayFlag st g2 guild2 := by
  unfold disable_relay
  cases hsg : dictGet st.server_groups guild with
  | none => rfl
  | some g =>
    by_cases hge : g = ""
    · simp [hge]
    · cases hre : dictGet st.relay_enabled g with
      | none => simp [if_neg hge, hre]
      | some re =>
        by_cases hiso : (dictGet re guild).isSome
        · simp only [if_neg hge, hre, hiso, if_true]
          by_cases hg2 : g2 = g
          · subst hg2
            have hguild2 : ¬ guild2 = guild := fun he => h ⟨hsg, he⟩
            have e1 : dictGet (dictSet st.relay_enabled g2 (dictSet re guild false)) g2 =
                some (dictSet re guild false) := dictGet_dictSet_self _ _ _
            have e2 : dictGet (dictSet re guild false) guild2 = dictGet re guild2 :=
              dictGet_dictSet_ne _ _ _ _ hguild2
            simp [relayFlag, e1, e2, hre]
          · have e1 : dictGet (dictSet st.relay_enabled g (dictSet re guild false)) g2 =
                dictGet st.relay_enabled g2 := dictGet_dictSet_ne _ _ _ _ hg2
            simp [relayFlag, e1]
        · simp [if_neg hge, hre, hiso]

/-- Claim C9: `/enable` and `/disable` mutate only the enabled flag of the
invoking guild binding in its current group: `group_mappings` (hence every
channel reference) and `server_groups` are untouched, every enabled flag
other than the one of the invoking pair is unchanged, and after a disable
followed by an enable the originally bound channel references are all still
in place without re-binding. -/
theorem enable_disable_frame :
    ∀ (st : BotState) (guild : GuildId),
      ((enable_relay st guild).state.group_mappings = st.group_mappings ∧
        (enable_relay st guild).state.server_groups = st.server_groups) ∧
      ((disable_relay st guild).state.group_mappings = st.group_mappings ∧
        (disable_relay st guild).state.server_groups = st.server_groups) ∧
      (∀ g2 guild2, ¬ (dictGet st.server_groups guild = some g2 ∧ guild2 = guild) →
        relayFlag (enable_relay st guild).state g2 guild2 = relayFlag st g2 guild2 ∧
        relayFlag (disable_relay st guild).state g2 guild2 = relayFlag st g2 guild2) ∧
      (enable_relay (disable_relay st guild).state guild).state.group_mappings =
        st.group_mappings := by
  intro st guild
  refine ⟨⟨enable_relay_frame_gm st guild, enable_relay_frame_sg st guild⟩,
    ⟨disable_relay_frame_gm st guild, disable_relay_frame_sg st guild⟩,
    fun g2 guild2 h2 => ⟨enable_relay_frame_flag st guild g2 guild2 h2,
      disable_relay_frame_flag st guild g2 guild2 h2⟩, ?_⟩
  rw [enable_relay_frame_gm, disable_relay_frame_gm]

/-- Witness for C9: disabling guild 1 in the sample state changes neither
the channel table nor the flag of guild 2, and a disable-enable round trip
leaves the channel table identical. -/
theorem enable_disable_frame_witness :
    (disable_relay sampleState 1).state.group_mappings = sampleState.group_mappings ∧
    relayFlag (disable_relay sampleState 1).state "alpha" 2 =
      relayFlag sampleState "alpha" 2 ∧
    (enable_relay (disable_relay sampleState 1).state 1).state.group_mappings =
      sampleState.group_mappings := by
  have h := enable_disable_frame sampleState 1
  exact ⟨h.2.1.1, (h.2.2.1 "alpha" 2 (by decide)).2, h.2.2.2⟩

/-- Claim C10: a message authored by the bot itself is dropped at the top of
`on_message`: command processing is not reached, no relay send is produced
and the state is unchanged, so a relayed copy (authored by the bot) arriving
in a bound channel is never relayed again. -/
theorem on_message_ignores_own :
    ∀ (st : BotState) (env : Env) (msg : Message),
      msg.authorId = env.botUser →
      on_message st env msg = (st, false, some []) := by
  intro st env msg h
  simp [on_message, h]

/-- Witness for C10: a copy arriving with the bot user as author is dropped
even though it sits in a bound, enabled channel. -/
theorem on_message_ignores_own_witness :
    on_message sampleState sampleEnv { sampleMsg with authorId := 999 } =
      (sampleState, false, some []) :=
  on_message_ignores_own sampleState sampleEnv
    { sampleMsg with authorId := 999 } (by decide)
